import Mathlib

/-!
Verification of the subscription-auditor core (`src/subscription_manager.py`):
the identity normalizer, the two-source merge fold, and the enrichment engine
(usage score, refund eligibility, categorization).

Modelling conventions: Python floats (costs, scores) are rationals, Python
ints (day counts) are integers, `datetime` timestamps are integers, and the
insertion-ordered Python dict built during the merge is an association list
in insertion order.
-/

/-- Lower-casing of a string, character by character (Python `str.lower` on
the ASCII fragment, as used by `name.lower()` in the source). -/
def pyLower (s : String) : String := ⟨s.data.map Char.toLower⟩

/-- Python substring membership `needle in hay` on character lists. -/
def listContainsSub : List Char → List Char → Bool
  | [], needle => needle.isEmpty
  | c :: t, needle => needle.isPrefixOf (c :: t) || listContainsSub t needle

/-- Python `needle in hay` for strings. -/
def pyIn (needle hay : String) : Bool := listContainsSub hay.data needle.data

/-- `_generate_subscription_key`: lower-case the name and remove every space,
hyphen and underscore, as in
`name.lower().replace(' ', '').replace('-', '').replace('_', '')`. -/
def generate_subscription_key (name : String) : String :=
  ⟨(((pyLower name).data.filter (· ≠ ' ')).filter (· ≠ '-')).filter (· ≠ '_')⟩

/-- The `Subscription` dataclass with its field defaults. -/
structure Subscription where
  name : String
  cost : ℚ
  billing_cycle : String
  last_charged : Int
  vendor_email : String
  cancellation_url : Option String := none
  phone_number : Option String := none
  usage_score : ℚ := 0
  refund_eligible : Bool := false
  days_since_signup : Int := 0
  category : String := "unknown"
deriving DecidableEq

/-- A raw inbox-derived record: a dict with required `name` and the optional
fields that `_merge_subscription_data` reads via `.get`. -/
structure EmailRecord where
  name : String
  cost : Option ℚ := none
  billing_cycle : Option String := none
  last_charged : Option Int := none
  vendor_email : Option String := none
  cancellation_url : Option String := none
  days_since_signup : Option Int := none
deriving DecidableEq

/-- A raw bank-derived record: required `name`, `cost` and `last_charged`. -/
structure BankRecord where
  name : String
  cost : ℚ
  last_charged : Int
deriving DecidableEq

/-- The insertion-ordered dict `merged` built by the merge fold. -/
abbrev SubMap := List (String × Subscription)

/-- Python `key in merged`. -/
def containsKey (m : SubMap) (k : String) : Bool := m.any fun p => p.1 == k

/-- Python `merged[key] = value`: overwrite in place when the key is present
(keeping its dict position), otherwise append at the end. -/
def dictSet (m : SubMap) (k : String) (v : Subscription) : SubMap :=
  if containsKey m k then
    m.map fun p => if p.1 = k then (p.1, v) else p
  else
    m ++ [(k, v)]

/-- Python `merged[key]` / `dict.get`-style lookup of the entity stored
under a key. -/
def lookupKey (k : String) (m : SubMap) : Option Subscription :=
  (m.find? fun p => p.1 == k).map Prod.snd

/-- The `Subscription(...)` built from an email record inside
`_merge_subscription_data`, with `datetime.now()` passed in as `now`. -/
def emailSubscription (now : Int) (sub : EmailRecord) : Subscription :=
  { name := sub.name
    cost := sub.cost.getD 0.0
    billing_cycle := sub.billing_cycle.getD "monthly"
    last_charged := sub.last_charged.getD now
    vendor_email := sub.vendor_email.getD ""
    cancellation_url := sub.cancellation_url
    days_since_signup := sub.days_since_signup.getD 0 }

/-- One step of the email loop of `_merge_subscription_data`. -/
def mergeEmailStep (now : Int) (m : SubMap) (sub : EmailRecord) : SubMap :=
  dictSet m (generate_subscription_key sub.name) (emailSubscription now sub)

/-- One step of the bank loop of `_merge_subscription_data`: update `cost`
and `last_charged` of an existing entry, else insert a fresh subscription
built from the bank record alone. -/
def mergeBankStep (m : SubMap) (sub : BankRecord) : SubMap :=
  let key := generate_subscription_key sub.name
  if containsKey m key then
    m.map fun p =>
      if p.1 = key then
        (p.1, { p.2 with cost := sub.cost, last_charged := sub.last_charged })
      else p
  else
    m ++ [(key, { name := sub.name
                  cost := sub.cost
                  billing_cycle := "monthly"
                  last_charged := sub.last_charged
                  vendor_email := "" })]

/-- `_merge_subscription_data`: fold the email records, then the bank
records, into the keyed dict, and return `list(merged.values())`. -/
def merge_subscription_data (now : Int) (email_subs : List EmailRecord)
    (bank_subs : List BankRecord) : List Subscription :=
  (bank_subs.foldl mergeBankStep (email_subs.foldl (mergeEmailStep now) [])).map Prod.snd

/-- `_calculate_usage_score`. -/
def calculate_usage_score (s : Subscription) : ℚ :=
  if s.days_since_signup < 7 then 1.0
  else if s.days_since_signup < 30 then 3.0
  else 5.0

/-- `_is_refund_eligible`. -/
def is_refund_eligible (s : Subscription) : Bool :=
  decide (s.days_since_signup ≤ 30) && decide (s.usage_score < 3.0)
    && decide (s.cost > 10.0)

/-- `_categorize_subscription`. -/
def categorize_subscription (s : Subscription) : String :=
  let name_lower := pyLower s.name
  if ["netflix", "hulu", "disney", "streaming"].any (fun word => pyIn word name_lower) then
    "entertainment"
  else if ["adobe", "canva", "figma", "design"].any (fun word => pyIn word name_lower) then
    "design_tools"
  else if ["github", "aws", "hosting", "domain"].any (fun word => pyIn word name_lower) then
    "development"
  else if ["gym", "fitness", "health"].any (fun word => pyIn word name_lower) then
    "health_fitness"
  else
    "other"

/-- `_enrich_subscription_data` applied to one subscription: the three
derived fields are assigned in sequence, so the eligibility check reads the
freshly computed usage score. -/
def enrich_subscription (s : Subscription) : Subscription :=
  let s1 := { s with usage_score := calculate_usage_score s }
  let s2 := { s1 with refund_eligible := is_refund_eligible s1 }
  { s2 with category := categorize_subscription s2 }

/-- `discover_subscriptions` restricted to the core: merge both sources,
then enrich every merged entity. -/
def discover_subscriptions (now : Int) (email_subs : List EmailRecord)
    (bank_subs : List BankRecord) : List Subscription :=
  (merge_subscription_data now email_subs bank_subs).map enrich_subscription

/-- The categorizer as the spec words it: an ordered list of
(category, keyword set) pairs, evaluated in sequence, first match wins,
default "other". -/
def categoryGroups : List (String × List String) :=
  [("entertainment", ["netflix", "hulu", "disney", "streaming"]),
   ("design_tools", ["adobe", "canva", "figma", "design"]),
   ("development", ["github", "aws", "hosting", "domain"]),
   ("health_fitness", ["gym", "fitness", "health"])]

/-- First-match-wins evaluation of `categoryGroups` on a name. -/
def categoryFromGroups (name : String) : String :=
  match categoryGroups.find? (fun g => g.2.any fun word => pyIn word (pyLower name)) with
  | some g => g.1
  | none => "other"

/-- A sample subscription used to exercise the enrichment functions at
given days-since-signup, usage-score and cost values. -/
def sampleSub (days : Int) (usage cost : ℚ) : Subscription :=
  { name := "x", cost := cost, billing_cycle := "monthly", last_charged := 0,
    vendor_email := "", usage_score := usage, days_since_signup := days }

/-- A sample subscription carrying only a name, for the categorizer. -/
def namedSub (name : String) : Subscription :=
  { name := name, cost := 0, billing_cycle := "monthly", last_charged := 0,
    vendor_email := "" }

/-- Test for the three separator characters removed by the normalizer. -/
def isSepChar (c : Char) : Bool := c == ' ' || c == '-' || c == '_'

/-- The characters of a string other than space, hyphen and underscore, in
order: the case-carrying content the normalizer keys on. -/
def sepFree (s : String) : List Char := s.data.filter fun c => !(isSepChar c)

/-- Invariant of the merge fold: every dict entry is stored under the
canonical key of its own entity's name. -/
def keyedByName (m : SubMap) : Prop :=
  ∀ p ∈ m, p.1 = generate_subscription_key p.2.name

/-- Invariant of the merge fold: the dict keys are pairwise distinct. -/
def keysNodup (m : SubMap) : Prop := (m.map Prod.fst).Nodup

/-! ### Helper lemmas -/

theorem char_toNat_ofNat {n : Nat} (h : n.isValidChar) : (Char.ofNat n).toNat = n := by
  unfold Char.ofNat
  rw [dif_pos h]
  rfl

theorem char_toNat_injective {c d : Char} (h : c.toNat = d.toNat) : c = d := by
  apply Char.ext
  exact UInt32.ext h

theorem isSepChar_iff (c : Char) :
    isSepChar c = true ↔ (c.toNat = 32 ∨ c.toNat = 45 ∨ c.toNat = 95) := by
  constructor
  · intro h
    simp only [isSepChar, Bool.or_eq_true, beq_iff_eq] at h
    rcases h with (h | h) | h <;> subst h <;> simp [Char.toNat]
  · intro h
    rcases h with h | h | h
    · have hc : c = ' ' := char_toNat_injective h
      subst hc; rfl
    · have hc : c = '-' := char_toNat_injective h
      subst hc; rfl
    · have hc : c = '_' := char_toNat_injective h
      subst hc; rfl

theorem isSepChar_toLower (c : Char) : isSepChar (Char.toLower c) = isSepChar c := by
  unfold Char.toLower
  dsimp only
  split
  · rename_i h
    obtain ⟨h1, h2⟩ := h
    have hv : (c.toNat + 32).isValidChar := by
      left; omega
    have ht : (Char.ofNat (c.toNat + 32)).toNat = c.toNat + 32 := char_toNat_ofNat hv
    have l1 : isSepChar (Char.ofNat (c.toNat + 32)) = false := by
      rw [Bool.eq_false_iff]
      intro hc
      rw [isSepChar_iff] at hc
      omega
    have l2 : isSepChar c = false := by
      rw [Bool.eq_false_iff]
      intro hc
      rw [isSepChar_iff] at hc
      omega
    rw [l1, l2]
  · rfl

theorem generate_key_eq_sepFree (s : String) :
    generate_subscription_key s = ⟨(sepFree s).map Char.toLower⟩ := by
  unfold generate_subscription_key sepFree pyLower
  congr 1
  rw [List.filter_filter, List.filter_filter, List.filter_map]
  apply congrArg
  apply List.filter_congr
  intro c _
  simp only [Function.comp]
  rw [← isSepChar_toLower c]
  by_cases h1 : Char.toLower c = ' ' <;> by_cases h2 : Char.toLower c = '-' <;>
    by_cases h3 : Char.toLower c = '_' <;>
      simp [isSepChar, h1, h2, h3]

theorem lookupKey_map_update (m : SubMap) (k : String) (f : Subscription → Subscription) :
    lookupKey k (m.map fun p => if p.1 = k then (p.1, f p.2) else p) =
      (lookupKey k m).map f := by
  induction m with
  | nil => rfl
  | cons p t ih =>
    by_cases hp : p.1 = k
    · simp [lookupKey, List.find?, hp]
    · simp only [List.map_cons, lookupKey, List.find?] at ih ⊢
      rw [if_neg hp]
      have hb : (p.1 == k) = false := by
        simp [hp]
      rw [hb]
      exact ih

theorem containsKey_of_lookupKey {m : SubMap} {k : String} {e : Subscription}
    (h : lookupKey k m = some e) : containsKey m k = true := by
  unfold lookupKey at h
  cases hf : m.find? fun p => p.1 == k with
  | none => rw [hf] at h; cases h
  | some p =>
    have hm : p ∈ m := List.mem_of_find?_eq_some hf
    have hp := List.find?_some (p := fun q => q.1 == k) (a := p) hf
    unfold containsKey
    rw [List.any_eq_true]
    exact ⟨p, hm, hp⟩

/-! ### Theorems -/

/-- C1: end-to-end scenario. With inbox input
`[{name: "Netflix", cost: 15.99, days_since_signup: 5}]` (its
`last_charged` defaulted) and bank input
`[{name: "netflix", cost: 15.99, last_charged: T2}]`, discovery produces
exactly one merged entity, with usage score 1.0, category "entertainment",
cost 15.99, last charged T2, and refund eligibility true. -/
theorem C1_end_to_end_netflix (now T2 : Int) :
    discover_subscriptions now
      [{ name := "Netflix", cost := some 15.99, days_since_signup := some 5 }]
      [{ name := "netflix", cost := 15.99, last_charged := T2 }] =
    [{ name := "Netflix", cost := 15.99, billing_cycle := "monthly",
       last_charged := T2, vendor_email := "", cancellation_url := none,
       phone_number := none, usage_score := 1.0, refund_eligible := true,
       days_since_signup := 5, category := "entertainment" }] := by
  have hk : generate_subscription_key "Netflix" = "netflix" := by decide
  have hk2 : generate_subscription_key "netflix" = "netflix" := by decide
  simp [discover_subscriptions, merge_subscription_data, mergeEmailStep,
    mergeBankStep, dictSet, containsKey, emailSubscription, hk, hk2,
    enrich_subscription, calculate_usage_score, is_refund_eligible,
    categorize_subscription]
  norm_num
  decide

/-- C3: refund eligibility holds exactly when `days_since_signup ≤ 30`,
`usage_score < 3.0` and `cost > 10.0`; at the boundaries, an entity with
days 30, usage score 2.9 and cost 10.01 is eligible, one with cost exactly
10.0 is not, and one with days 31 is not. -/
theorem C3_refund_eligibility :
    (∀ s : Subscription, is_refund_eligible s = true ↔
      (s.days_since_signup ≤ 30 ∧ s.usage_score < 3.0 ∧ s.cost > 10.0))
    ∧ is_refund_eligible (sampleSub 30 2.9 10.01) = true
    ∧ is_refund_eligible (sampleSub 30 2.9 10.0) = false
    ∧ is_refund_eligible (sampleSub 31 2.9 10.01) = false := by
  refine ⟨fun s => ?_, by norm_num [is_refund_eligible, sampleSub],
    by norm_num [is_refund_eligible, sampleSub],
    by norm_num [is_refund_eligible, sampleSub]⟩
  simp [is_refund_eligible, and_assoc]

/-- C4: the usage score depends only on `days_since_signup` through three
buckets: 1.0 below 7 days, 3.0 from 7 to 29 days, 5.0 from 30 days on; in
particular 6 days give 1.0, 7 and 29 give 3.0, and 30 gives 5.0. -/
theorem C4_usage_score_buckets :
    (∀ s : Subscription,
      (s.days_since_signup < 7 → calculate_usage_score s = 1.0)
      ∧ (7 ≤ s.days_since_signup → s.days_since_signup < 30 →
          calculate_usage_score s = 3.0)
      ∧ (30 ≤ s.days_since_signup → calculate_usage_score s = 5.0))
    ∧ calculate_usage_score (sampleSub 6 0 0) = 1.0
    ∧ calculate_usage_score (sampleSub 7 0 0) = 3.0
    ∧ calculate_usage_score (sampleSub 29 0 0) = 3.0
    ∧ calculate_usage_score (sampleSub 30 0 0) = 5.0 := by
  refine ⟨fun s => ⟨fun h => ?_, fun h1 h2 => ?_, fun h => ?_⟩,
    by norm_num [calculate_usage_score, sampleSub],
    by norm_num [calculate_usage_score, sampleSub],
    by norm_num [calculate_usage_score, sampleSub],
    by norm_num [calculate_usage_score, sampleSub]⟩
  · simp [calculate_usage_score, h]
  · simp [calculate_usage_score, h2]
    omega
  · have h1 : ¬ s.days_since_signup < 7 := by omega
    have h2 : ¬ s.days_since_signup < 30 := by omega
    simp [calculate_usage_score, h1, h2]

/-- C4 witness: the bucket implications instantiated at concrete entities
with 6 and 30 days since signup. -/
theorem C4_usage_score_buckets_witness :
    calculate_usage_score (sampleSub 6 0 0) = 1.0
    ∧ calculate_usage_score (sampleSub 30 0 0) = 5.0 :=
  ⟨(C4_usage_score_buckets.1 _).1 (by decide),
   (C4_usage_score_buckets.1 _).2.2 (by decide)⟩

/-- C5: the categorizer agrees with the spec's priority-ordered
keyword-group table (first matching group wins, default "other"), and the
name "GitHub Design Pro" is categorized "design_tools" because the
design-tools group is checked before the development group. -/
theorem C5_categorize_priority :
    (∀ s : Subscription, categorize_subscription s = categoryFromGroups s.name)
    ∧ categorize_subscription (namedSub "GitHub Design Pro") = "design_tools" := by
  constructor
  · intro s
    simp only [categorize_subscription, categoryFromGroups, categoryGroups,
      List.find?]
    cases h1 : List.any ["netflix", "hulu", "disney", "streaming"]
        (fun word => pyIn word (pyLower s.name)) <;>
      cases h2 : List.any ["adobe", "canva", "figma", "design"]
          (fun word => pyIn word (pyLower s.name)) <;>
        cases h3 : List.any ["github", "aws", "hosting", "domain"]
            (fun word => pyIn word (pyLower s.name)) <;>
          cases h4 : List.any ["gym", "fitness", "health"]
              (fun word => pyIn word (pyLower s.name)) <;>
            simp [h1, h2, h3, h4]
  · decide

/-- C2: when a bank record's canonical key is already present, the merge
step replaces only the stored entity's `cost` and `last_charged` with the
bank values; every other field of the stored entity is untouched. -/
theorem C2_bank_overwrite_frame (m : SubMap) (b : BankRecord) (e : Subscription)
    (h : lookupKey (generate_subscription_key b.name) m = some e) :
    lookupKey (generate_subscription_key b.name) (mergeBankStep m b) =
      some { e with cost := b.cost, last_charged := b.last_charged } := by
  have hc : containsKey m (generate_subscription_key b.name) = true :=
    containsKey_of_lookupKey h
  unfold mergeBankStep
  simp only [hc, if_true]
  rw [lookupKey_map_update m (generate_subscription_key b.name)
    (fun s => { s with cost := b.cost, last_charged := b.last_charged }), h]
  rfl

/-- C2 witness: the frame theorem applied to a one-entry dict holding the
inbox-sourced Netflix entity and a bank record for the same key. -/
theorem C2_bank_overwrite_frame_witness :
    lookupKey (generate_subscription_key "Netflix")
        (mergeBankStep [("netflix", namedSub "Netflix")]
          { name := "Netflix", cost := 15, last_charged := 7 }) =
      some { namedSub "Netflix" with cost := 15, last_charged := 7 } :=
  C2_bank_overwrite_frame [("netflix", namedSub "Netflix")]
    { name := "Netflix", cost := 15, last_charged := 7 } (namedSub "Netflix") rfl

/-- C6: the normalizer is total (the empty string yields the empty key with
no error) and any two names that agree after dropping space, hyphen and
underscore characters and ignoring letter case receive the same canonical
key. -/
theorem C6_normalizer_invariance :
    generate_subscription_key "" = ""
    ∧ ∀ x y : String,
        (sepFree x).map Char.toLower = (sepFree y).map Char.toLower →
        generate_subscription_key x = generate_subscription_key y := by
  refine ⟨rfl, fun x y h => ?_⟩
  rw [generate_key_eq_sepFree, generate_key_eq_sepFree, h]

/-- C6 witness: "Net-Flix " and "NET_FLIX" differ only in case and
separator placement and get the same key. -/
theorem C6_normalizer_invariance_witness :
    generate_subscription_key "Net-Flix " = generate_subscription_key "NET_FLIX" :=
  C6_normalizer_invariance.2 "Net-Flix " "NET_FLIX" (by decide)

/-- An email record that carries an explicit `last_charged` produces the
same subscription regardless of the processing time. -/
theorem emailSubscription_now_irrelevant {r : EmailRecord}
    (h : r.last_charged.isSome = true) (n1 n2 : Int) :
    emailSubscription n1 r = emailSubscription n2 r := by
  cases hr : r.last_charged with
  | none => rw [hr] at h; cases h
  | some t => simp [emailSubscription, hr]

theorem foldl_email_now_irrelevant (e : List EmailRecord)
    (h : ∀ r ∈ e, r.last_charged.isSome = true) (n1 n2 : Int) (m : SubMap) :
    e.foldl (mergeEmailStep n1) m = e.foldl (mergeEmailStep n2) m := by
  induction e generalizing m with
  | nil => rfl
  | cons r t ih =>
    simp only [List.foldl_cons]
    unfold mergeEmailStep
    rw [emailSubscription_now_irrelevant (h r (by simp)) n1 n2]
    exact ih (fun q hq => h q (by simp [hq])) _

/-- C7: the merge is deterministic. When every inbox record supplies an
explicit `last_charged` (so the current-time fallback is never taken), the
output is fully determined by the two input sequences: merging the same
sequences at any two processing times yields identical entities. -/
theorem C7_merge_deterministic (e : List EmailRecord) (b : List BankRecord)
    (h : ∀ r ∈ e, r.last_charged.isSome = true) (n1 n2 : Int) :
    merge_subscription_data n1 e b = merge_subscription_data n2 e b := by
  unfold merge_subscription_data
  rw [foldl_email_now_irrelevant e h n1 n2]

/-- C7 witness: determinism at two distinct processing times on a concrete
input whose single inbox record has an explicit `last_charged`. -/
theorem C7_merge_deterministic_witness :
    merge_subscription_data 5 [{ name := "a", last_charged := some 1 }] []
      = merge_subscription_data 9 [{ name := "a", last_charged := some 1 }] [] :=
  C7_merge_deterministic [{ name := "a", last_charged := some 1 }] []
    (by decide) 5 9

theorem map_fst_update (m : SubMap) (k : String) (g : String × Subscription → Subscription) :
    (m.map fun p => if p.1 = k then (p.1, g p) else p).map Prod.fst = m.map Prod.fst := by
  rw [List.map_map]
  apply List.map_congr_left
  intro p _
  by_cases hp : p.1 = k <;> simp [hp]

theorem not_mem_keys_of_containsKey_false {m : SubMap} {k : String}
    (h : ¬ containsKey m k = true) : k ∉ m.map Prod.fst := by
  intro hk
  rw [List.mem_map] at hk
  obtain ⟨p, hp, he⟩ := hk
  apply h
  unfold containsKey
  rw [List.any_eq_true]
  exact ⟨p, hp, by simp [he]⟩

theorem keyedByName_dictSet {m : SubMap} {k : String} {v : Subscription}
    (hm : keyedByName m) (hv : k = generate_subscription_key v.name) :
    keyedByName (dictSet m k v) := by
  unfold dictSet
  split
  · intro p hp
    rw [List.mem_map] at hp
    obtain ⟨q, hq, he⟩ := hp
    by_cases h1 : q.1 = k
    · rw [if_pos h1] at he
      cases he
      simpa [h1] using hv
    · rw [if_neg h1] at he
      cases he
      exact hm _ hq
  · intro p hp
    rw [List.mem_append] at hp
    rcases hp with hp | hp
    · exact hm p hp
    · rw [List.mem_singleton] at hp
      subst hp
      exact hv

theorem keysNodup_dictSet {m : SubMap} {k : String} {v : Subscription}
    (hm : keysNodup m) : keysNodup (dictSet m k v) := by
  unfold dictSet
  split
  · unfold keysNodup
    rw [map_fst_update m k fun _ => v]
    exact hm
  · rename_i hc
    unfold keysNodup
    rw [List.map_append]
    apply List.Nodup.append hm (List.nodup_singleton k)
    intro a ha hb
    simp only [List.map_cons, List.map_nil, List.mem_singleton] at hb
    subst hb
    exact not_mem_keys_of_containsKey_false hc ha

theorem keyedByName_bankStep {m : SubMap} {b : BankRecord}
    (hm : keyedByName m) : keyedByName (mergeBankStep m b) := by
  unfold mergeBankStep
  dsimp only
  split
  · intro p hp
    rw [List.mem_map] at hp
    obtain ⟨q, hq, he⟩ := hp
    by_cases h1 : q.1 = generate_subscription_key b.name
    · rw [if_pos h1] at he
      cases he
      exact hm q hq
    · rw [if_neg h1] at he
      cases he
      exact hm _ hq
  · intro p hp
    rw [List.mem_append] at hp
    rcases hp with hp | hp
    · exact hm p hp
    · rw [List.mem_singleton] at hp
      subst hp
      rfl

theorem keysNodup_bankStep {m : SubMap} {b : BankRecord}
    (hm : keysNodup m) : keysNodup (mergeBankStep m b) := by
  unfold mergeBankStep
  dsimp only
  split
  · unfold keysNodup
    rw [map_fst_update m (generate_subscription_key b.name)
      fun p => { p.2 with cost := b.cost, last_charged := b.last_charged }]
    exact hm
  · rename_i hc
    unfold keysNodup
    rw [List.map_append]
    apply List.Nodup.append hm
      (List.nodup_singleton (generate_subscription_key b.name))
    intro a ha hb
    simp only [List.map_cons, List.map_nil, List.mem_singleton] at hb
    subst hb
    exact not_mem_keys_of_containsKey_false hc ha

theorem foldl_email_keyed (now : Int) (e : List EmailRecord) (m : SubMap)
    (hm : keyedByName m) : keyedByName (e.foldl (mergeEmailStep now) m) := by
  induction e generalizing m with
  | nil => exact hm
  | cons r t ih =>
    rw [List.foldl_cons]
    exact ih _ (keyedByName_dictSet hm rfl)

theorem foldl_email_nodup (now : Int) (e : List EmailRecord) (m : SubMap)
    (hm : keysNodup m) : keysNodup (e.foldl (mergeEmailStep now) m) := by
  induction e generalizing m with
  | nil => exact hm
  | cons r t ih =>
    rw [List.foldl_cons]
    exact ih _ (keysNodup_dictSet hm)

theorem foldl_bank_keyed (b : List BankRecord) (m : SubMap)
    (hm : keyedByName m) : keyedByName (b.foldl mergeBankStep m) := by
  induction b generalizing m with
  | nil => exact hm
  | cons r t ih =>
    rw [List.foldl_cons]
    exact ih _ (keyedByName_bankStep hm)

theorem foldl_bank_nodup (b : List BankRecord) (m : SubMap)
    (hm : keysNodup m) : keysNodup (b.foldl mergeBankStep m) := by
  induction b generalizing m with
  | nil => exact hm
  | cons r t ih =>
    rw [List.foldl_cons]
    exact ih _ (keysNodup_bankStep hm)

theorem mem_keys_of_containsKey {m : SubMap} {k : String}
    (h : containsKey m k = true) : k ∈ m.map Prod.fst := by
  unfold containsKey at h
  rw [List.any_eq_true] at h
  obtain ⟨p, hp, hb⟩ := h
  rw [beq_iff_eq] at hb
  rw [List.mem_map]
  exact ⟨p, hp, hb⟩

theorem mem_keys_dictSet_self (m : SubMap) (k : String) (v : Subscription) :
    k ∈ (dictSet m k v).map Prod.fst := by
  unfold dictSet
  split
  · rename_i hc
    rw [map_fst_update m k fun _ => v]
    exact mem_keys_of_containsKey hc
  · rw [List.map_append, List.mem_append]
    right
    simp

theorem mem_keys_dictSet_mono {m : SubMap} {a : String} (k : String)
    (v : Subscription) (h : a ∈ m.map Prod.fst) :
    a ∈ (dictSet m k v).map Prod.fst := by
  unfold dictSet
  split
  · rw [map_fst_update m k fun _ => v]
    exact h
  · rw [List.map_append, List.mem_append]
    left
    exact h

theorem mem_keys_bankStep_self (m : SubMap) (b : BankRecord) :
    generate_subscription_key b.name ∈ (mergeBankStep m b).map Prod.fst := by
  unfold mergeBankStep
  dsimp only
  split
  · rename_i hc
    rw [map_fst_update m (generate_subscription_key b.name)
      fun p => { p.2 with cost := b.cost, last_charged := b.last_charged }]
    exact mem_keys_of_containsKey hc
  · rw [List.map_append, List.mem_append]
    right
    simp

theorem mem_keys_bankStep_mono {m : SubMap} {a : String} (b : BankRecord)
    (h : a ∈ m.map Prod.fst) : a ∈ (mergeBankStep m b).map Prod.fst := by
  unfold mergeBankStep
  dsimp only
  split
  · rw [map_fst_update m (generate_subscription_key b.name)
      fun p => { p.2 with cost := b.cost, last_charged := b.last_charged }]
    exact h
  · rw [List.map_append, List.mem_append]
    left
    exact h

theorem mem_keys_foldl_email_mono (now : Int) (e : List EmailRecord)
    {m : SubMap} {a : String} (h : a ∈ m.map Prod.fst) :
    a ∈ (e.foldl (mergeEmailStep now) m).map Prod.fst := by
  induction e generalizing m with
  | nil => exact h
  | cons r t ih =>
    rw [List.foldl_cons]
    exact ih (mem_keys_dictSet_mono _ _ h)

theorem mem_keys_foldl_bank_mono (b : List BankRecord) {m : SubMap}
    {a : String} (h : a ∈ m.map Prod.fst) :
    a ∈ (b.foldl mergeBankStep m).map Prod.fst := by
  induction b generalizing m with
  | nil => exact h
  | cons r t ih =>
    rw [List.foldl_cons]
    exact ih (mem_keys_bankStep_mono _ h)

theorem mem_keys_foldl_email (now : Int) (e : List EmailRecord) (m : SubMap)
    {r : EmailRecord} (hr : r ∈ e) :
    generate_subscription_key r.name ∈ (e.foldl (mergeEmailStep now) m).map Prod.fst := by
  induction e generalizing m with
  | nil => cases hr
  | cons q t ih =>
    rw [List.foldl_cons]
    rcases List.mem_cons.mp hr with h | h
    · subst h
      exact mem_keys_foldl_email_mono now t (mem_keys_dictSet_self m _ _)
    · exact ih _ h

theorem mem_keys_foldl_bank (b : List BankRecord) (m : SubMap)
    {r : BankRecord} (hr : r ∈ b) :
    generate_subscription_key r.name ∈ (b.foldl mergeBankStep m).map Prod.fst := by
  induction b generalizing m with
  | nil => cases hr
  | cons q t ih =>
    rw [List.foldl_cons]
    rcases List.mem_cons.mp hr with h | h
    · subst h
      exact mem_keys_foldl_bank_mono t (mem_keys_bankStep_self m _)
    · exact ih _ h

/-- C8: canonical-key uniqueness of the merge output. No two output
entities share a canonical key, and every input record (from either
source) is represented by an output entity with its canonical key. -/
theorem C8_canonical_key_uniqueness (now : Int) (e : List EmailRecord)
    (b : List BankRecord) :
    List.Pairwise
      (fun s t => generate_subscription_key s.name ≠ generate_subscription_key t.name)
      (merge_subscription_data now e b)
    ∧ (∀ r ∈ e, ∃ s ∈ merge_subscription_data now e b,
        generate_subscription_key s.name = generate_subscription_key r.name)
    ∧ ∀ r ∈ b, ∃ s ∈ merge_subscription_data now e b,
        generate_subscription_key s.name = generate_subscription_key r.name := by
  have hkeyed : keyedByName (b.foldl mergeBankStep (e.foldl (mergeEmailStep now) [])) :=
    foldl_bank_keyed _ _ (foldl_email_keyed _ _ _ (by intro p hp; cases hp))
  have hnodup : keysNodup (b.foldl mergeBankStep (e.foldl (mergeEmailStep now) [])) :=
    foldl_bank_nodup _ _ (foldl_email_nodup _ _ _ List.nodup_nil)
  refine ⟨?_, ?_, ?_⟩
  · have h1 : (b.foldl mergeBankStep (e.foldl (mergeEmailStep now) [])).map Prod.fst
        = ((b.foldl mergeBankStep (e.foldl (mergeEmailStep now) [])).map Prod.snd).map
            (fun s => generate_subscription_key s.name) := by
      rw [List.map_map]
      apply List.map_congr_left
      intro p hp
      exact hkeyed p hp
    have h2 := hnodup
    unfold keysNodup at h2
    rw [h1] at h2
    exact List.pairwise_map.mp h2
  · intro r hr
    have hk : generate_subscription_key r.name
        ∈ (b.foldl mergeBankStep (e.foldl (mergeEmailStep now) [])).map Prod.fst :=
      mem_keys_foldl_bank_mono b (mem_keys_foldl_email now e [] hr)
    rw [List.mem_map] at hk
    obtain ⟨p, hp, he⟩ := hk
    refine ⟨p.2, List.mem_map.mpr ⟨p, hp, rfl⟩, ?_⟩
    rw [← hkeyed p hp]
    exact he
  · intro r hr
    have hk : generate_subscription_key r.name
        ∈ (b.foldl mergeBankStep (e.foldl (mergeEmailStep now) [])).map Prod.fst :=
      mem_keys_foldl_bank b _ hr
    rw [List.mem_map] at hk
    obtain ⟨p, hp, he⟩ := hk
    refine ⟨p.2, List.mem_map.mpr ⟨p, hp, rfl⟩, ?_⟩
    rw [← hkeyed p hp]
    exact he

/-- C8 witness: on a concrete one-record inbox input, the output contains
an entity carrying the record's canonical key. -/
theorem C8_canonical_key_uniqueness_witness :
    ∃ s ∈ merge_subscription_data 0 [{ name := "Netflix" }] [],
      generate_subscription_key s.name
        = generate_subscription_key (EmailRecord.name { name := "Netflix" }) :=
  (C8_canonical_key_uniqueness 0 [{ name := "Netflix" }] []).2.1
    { name := "Netflix" } (List.mem_singleton.mpr rfl)

theorem phone_none_dictSet {m : SubMap} {k : String} {v : Subscription}
    (hm : ∀ p ∈ m, p.2.phone_number = none) (hv : v.phone_number = none) :
    ∀ p ∈ dictSet m k v, p.2.phone_number = none := by
  unfold dictSet
  split
  · intro p hp
    rw [List.mem_map] at hp
    obtain ⟨q, hq, he⟩ := hp
    by_cases h1 : q.1 = k
    · rw [if_pos h1] at he
      cases he
      exact hv
    · rw [if_neg h1] at he
      cases he
      exact hm _ hq
  · intro p hp
    rw [List.mem_append] at hp
    rcases hp with hp | hp
    · exact hm p hp
    · rw [List.mem_singleton] at hp
      subst hp
      exact hv

theorem phone_none_bankStep {m : SubMap} {b : BankRecord}
    (hm : ∀ p ∈ m, p.2.phone_number = none) :
    ∀ p ∈ mergeBankStep m b, p.2.phone_number = none := by
  unfold mergeBankStep
  dsimp only
  split
  · intro p hp
    rw [List.mem_map] at hp
    obtain ⟨q, hq, he⟩ := hp
    by_cases h1 : q.1 = generate_subscription_key b.name
    · rw [if_pos h1] at he
      cases he
      exact hm q hq
    · rw [if_neg h1] at he
      cases he
      exact hm _ hq
  · intro p hp
    rw [List.mem_append] at hp
    rcases hp with hp | hp
    · exact hm p hp
    · rw [List.mem_singleton] at hp
      subst hp
      rfl

theorem phone_none_foldl_email (now : Int) (e : List EmailRecord) (m : SubMap)
    (hm : ∀ p ∈ m, p.2.phone_number = none) :
    ∀ p ∈ e.foldl (mergeEmailStep now) m, p.2.phone_number = none := by
  induction e generalizing m with
  | nil => exact hm
  | cons r t ih =>
    rw [List.foldl_cons]
    exact ih _ (phone_none_dictSet hm rfl)

theorem phone_none_foldl_bank (b : List BankRecord) (m : SubMap)
    (hm : ∀ p ∈ m, p.2.phone_number = none) :
    ∀ p ∈ b.foldl mergeBankStep m, p.2.phone_number = none := by
  induction b generalizing m with
  | nil => exact hm
  | cons r t ih =>
    rw [List.foldl_cons]
    exact ih _ (phone_none_bankStep hm)

/-- C9: the merge never populates `phone_number`; every output entity keeps
the dataclass default `None`. -/
theorem C9_phone_number_always_none (now : Int) (e : List EmailRecord)
    (b : List BankRecord) :
    ∀ s ∈ merge_subscription_data now e b, s.phone_number = none := by
  intro s hs
  unfold merge_subscription_data at hs
  rw [List.mem_map] at hs
  obtain ⟨p, hp, he⟩ := hs
  rw [← he]
  exact phone_none_foldl_bank b _ (phone_none_foldl_email now e []
    (by intro p hp; cases hp)) p hp

/-- C9 witness: the phone number of the single entity produced from a
concrete one-record inbox input is `None`. -/
theorem C9_phone_number_always_none_witness :
    Subscription.phone_number
      { name := "a", cost := 0.0, billing_cycle := "monthly", last_charged := 0,
        vendor_email := "", cancellation_url := none, days_since_signup := 0 }
      = none :=
  C9_phone_number_always_none 0 [{ name := "a", last_charged := some 0 }] []
    { name := "a", cost := 0.0, billing_cycle := "monthly", last_charged := 0,
      vendor_email := "", cancellation_url := none, days_since_signup := 0 }
    (by simp [merge_subscription_data, mergeEmailStep, dictSet, containsKey,
      emailSubscription])

theorem mem_keys_dictSet_cases {m : SubMap} {k : String} {v : Subscription}
    {a : String} (h : a ∈ (dictSet m k v).map Prod.fst) :
    a ∈ m.map Prod.fst ∨ a = k := by
  unfold dictSet at h
  split at h
  · rw [map_fst_update m k fun _ => v] at h
    exact Or.inl h
  · rw [List.map_append, List.mem_append] at h
    rcases h with h | h
    · exact Or.inl h
    · simp only [List.map_cons, List.map_nil, List.mem_singleton] at h
      exact Or.inr h

theorem mem_keys_foldl_email_cases (now : Int) (e : List EmailRecord)
    (m : SubMap) {a : String}
    (h : a ∈ (e.foldl (mergeEmailStep now) m).map Prod.fst) :
    a ∈ m.map Prod.fst ∨ ∃ r ∈ e, a = generate_subscription_key r.name := by
  induction e generalizing m with
  | nil => exact Or.inl h
  | cons q t ih =>
    rw [List.foldl_cons] at h
    rcases ih _ h with h1 | h1
    · rcases mem_keys_dictSet_cases h1 with h2 | h2
      · exact Or.inl h2
      · exact Or.inr ⟨q, by simp, h2⟩
    · obtain ⟨r, hr, he⟩ := h1
      exact Or.inr ⟨r, by simp [hr], he⟩

theorem foldl_bank_days (b : List BankRecord) (m m0 : SubMap)
    (hm : ∀ p ∈ m, p.1 ∈ m0.map Prod.fst ∨ p.2.days_since_signup = 0) :
    ∀ p ∈ b.foldl mergeBankStep m,
      p.1 ∈ m0.map Prod.fst ∨ p.2.days_since_signup = 0 := by
  induction b generalizing m with
  | nil => exact hm
  | cons q t ih =>
    rw [List.foldl_cons]
    apply ih
    intro p hp
    unfold mergeBankStep at hp
    dsimp only at hp
    split at hp
    · rw [List.mem_map] at hp
      obtain ⟨u, hu, he⟩ := hp
      by_cases h1 : u.1 = generate_subscription_key q.name
      · rw [if_pos h1] at he
        cases he
        exact hm u hu
      · rw [if_neg h1] at he
        cases he
        exact hm _ hu
    · rw [List.mem_append] at hp
      rcases hp with hp | hp
      · exact hm p hp
      · rw [List.mem_singleton] at hp
        subst hp
        exact Or.inr rfl

/-- C10: an output entity whose canonical key matches no inbox record was
created from a bank record alone, so it keeps the dataclass default
`days_since_signup = 0`; after enrichment its usage score is 1.0 and it is
refund-eligible exactly when its cost exceeds 10.0. -/
theorem C10_bank_only_defaults (now : Int) (e : List EmailRecord)
    (b : List BankRecord) :
    ∀ s ∈ merge_subscription_data now e b,
      (∀ r ∈ e, generate_subscription_key r.name ≠ generate_subscription_key s.name) →
      s.days_since_signup = 0
      ∧ (enrich_subscription s).usage_score = 1.0
      ∧ ((enrich_subscription s).refund_eligible = true ↔ s.cost > 10.0) := by
  intro s hs hno
  unfold merge_subscription_data at hs
  rw [List.mem_map] at hs
  obtain ⟨p, hp, hps⟩ := hs
  have hkeyed : keyedByName (b.foldl mergeBankStep (e.foldl (mergeEmailStep now) [])) :=
    foldl_bank_keyed _ _ (foldl_email_keyed _ _ _ (by intro u hu; cases hu))
  have hdays : s.days_since_signup = 0 := by
    rcases foldl_bank_days b _ (e.foldl (mergeEmailStep now) [])
        (fun u hu => Or.inl (List.mem_map.mpr ⟨u, hu, rfl⟩)) p hp with h | h
    · rcases mem_keys_foldl_email_cases now e [] h with h0 | h0
      · cases h0
      · obtain ⟨r, hr, he⟩ := h0
        have hpk := hkeyed p hp
        rw [hps] at hpk
        exact absurd (by rw [← he, hpk]) (hno r hr)
    · rw [← hps]
      exact h
  refine ⟨hdays, ?_, ?_⟩
  · simp [enrich_subscription, calculate_usage_score, hdays]
  · simp [enrich_subscription, is_refund_eligible, calculate_usage_score, hdays]
    norm_num

/-- C10 witness: the single entity produced from a bank-only input has
days-since-signup 0, usage score 1.0 after enrichment, and is
refund-eligible since its cost 12 exceeds 10. -/
theorem C10_bank_only_defaults_witness :
    (sampleSub 0 0 12).days_since_signup = 0
    ∧ (enrich_subscription (sampleSub 0 0 12)).usage_score = 1.0
    ∧ ((enrich_subscription (sampleSub 0 0 12)).refund_eligible = true
        ↔ (sampleSub 0 0 12).cost > 10.0) :=
  C10_bank_only_defaults 0 [] [{ name := "x", cost := 12, last_charged := 0 }]
    (sampleSub 0 0 12)
    (by simp [merge_subscription_data, mergeBankStep, containsKey, sampleSub])
    (by simp)
